import Mathlib

/-!
Verification of the agentpro coordination pipeline against its specification.
The Python sources are shallowly embedded: strings become `List Char`,
fallible operations return `Option`, and stateful dispatch is modelled as
explicit action lists.
-/

namespace AgentPro

/-! ## Character constants (written via code points to keep literals unambiguous) -/

def obrace : Char := Char.ofNat 123
def cbrace : Char := Char.ofNat 125
def btick  : Char := Char.ofNat 96
def bslashC : Char := Char.ofNat 92
def quoteC : Char := Char.ofNat 34
def aposC  : Char := Char.ofNat 39

/-- Python str.isspace for the ASCII whitespace characters; this is also the
character class of the regex shorthand for whitespace in ASCII mode. -/
def isPySpace (c : Char) : Bool :=
  c == ' ' || c == '\t' || c == '\n' || c == '\r' || c == Char.ofNat 11 || c == Char.ofNat 12

/-- Python str.lstrip with no argument: drop leading whitespace. -/
def lstripPy (l : List Char) : List Char := l.dropWhile isPySpace

/-- Python str.rstrip with no argument: drop trailing whitespace. -/
def rstripPy (l : List Char) : List Char := (l.reverse.dropWhile isPySpace).reverse

/-- Python str.strip with no argument. -/
def pyStrip (l : List Char) : List Char := rstripPy (lstripPy l)

/-- One step bounded engine for Python str.count of a substring: counts
non-overlapping occurrences scanning left to right. The fuel is at least the
length of the scanned list, so it never runs out on the wrapper below. -/
def countGo : Nat → List Char → List Char → Nat
  | 0, _, _ => 0
  | fuel+1, pat, s =>
    match s with
    | [] => 0
    | _ :: rest =>
      if pat.isPrefixOf s then countGo fuel pat (s.drop pat.length) + 1
      else countGo fuel pat rest

/-- Python str.count for a (nonempty) substring pattern. -/
def pyCount (pat s : List Char) : Nat := countGo s.length pat s

/-- The triple backtick fence marker. -/
def fence3 : List Char := [btick, btick, btick]

/-- The characters Python source writes as a tuple of closing punctuation in
is_likely_truncated: newline, closing brace, closing bracket, greater-than,
semicolon, double quote, apostrophe, closing parenthesis. -/
def closingChars : List Char := ['\n', cbrace, ']', '>', ';', quoteC, aposC, ')']

/-- Embedding of DeveloperService.is_likely_truncated from
src/services/developer_service_backup.py lines 122-150, translated
branch by branch. -/
def is_likely_truncated (text : List Char) : Bool :=
  if text = [] then false
  else if pyCount fence3 text % 2 ≠ 0 then true
  else if rstripPy text = [] then false
  else
    match (rstripPy text).getLast? with
    | none => false
    | some lastChar =>
      if lastChar ∈ closingChars then
        if text.count obrace > text.count cbrace then true else false
      else true

/-! ## Helper lemmas about stripping -/

theorem dropWhile_head_false {α : Type} (p : α → Bool) :
    ∀ (l : List α) (x : α) (xs : List α), l.dropWhile p = x :: xs → p x = false := by
  intro l
  induction l with
  | nil => intro x xs h; simp [List.dropWhile] at h
  | cons c t ih =>
    intro x xs h
    rw [List.dropWhile_cons] at h
    by_cases hc : p c = true
    · simp [hc] at h
      exact ih x xs h
    · simp [hc] at h
      rw [← h.1]
      simpa using hc

theorem rstripPy_eq_nil_iff (l : List Char) :
    rstripPy l = [] ↔ ∀ c ∈ l, isPySpace c = true := by
  unfold rstripPy
  rw [List.reverse_eq_nil_iff, List.dropWhile_eq_nil_iff]
  constructor
  · intro h c hc
    exact h c (List.mem_reverse.mpr hc)
  · intro h c hc
    exact h c (List.mem_reverse.mp hc)

/-- A convenience Bool formulation of the three independent truncation
signals named by the specification. -/
def oddFences (text : List Char) : Bool := pyCount fence3 text % 2 = 1

def lastNotClosing (text : List Char) : Bool :=
  match (rstripPy text).getLast? with
  | none => false
  | some c => decide (c ∉ closingChars)

def moreOpenBraces (text : List Char) : Bool :=
  decide (text.count obrace > text.count cbrace)

theorem count_eq_zero_of_rstrip_nil (text : List Char) (h : rstripPy text = [])
    (c : Char) (hc : isPySpace c = false) : text.count c = 0 := by
  rw [List.count_eq_zero]
  intro hmem
  have := (rstripPy_eq_nil_iff text).mp h c hmem
  rw [this] at hc
  exact Bool.noConfusion hc

/-- C2 example text that ends without closing punctuation. -/
def c2TruncText : List Char := ("writing files ...done").data

/-- C2 example text with balanced braces and even fence count, ending in a
closing brace. -/
def c2CompleteText : List Char := ("\x7b\"a\": 1\x7d").data

/-- C2: is_likely_truncated returns true exactly when one of the three
independent signals fires: odd fence-marker count, final trimmed character
outside the closing-punctuation set, or more open than close braces; the
example ending in a bare word is judged truncated, the balanced example
ending in a closing brace is not. -/
theorem c2_truncation_heuristic :
    (∀ text : List Char,
      is_likely_truncated text =
        (oddFences text || lastNotClosing text || moreOpenBraces text))
    ∧ is_likely_truncated c2TruncText = true
    ∧ is_likely_truncated c2CompleteText = false := by
  refine ⟨?_, by decide, by decide⟩
  intro text
  unfold is_likely_truncated oddFences lastNotClosing moreOpenBraces
  by_cases hnil : text = []
  · subst hnil
    simp [pyCount, countGo, rstripPy, List.dropWhile]
  · simp only [hnil, if_false]
    by_cases hodd : pyCount fence3 text % 2 ≠ 0
    · have h1 : pyCount fence3 text % 2 = 1 := by omega
      simp [hodd, h1]
    · have h0 : pyCount fence3 text % 2 = 0 := by omega
      simp only [hodd, if_false, h0]
      cases hs : rstripPy text with
      | nil =>
        have ho := count_eq_zero_of_rstrip_nil text hs obrace (by decide)
        have hc := count_eq_zero_of_rstrip_nil text hs cbrace (by decide)
        simp [hs, ho, hc]
      | cons x xs =>
        have hlast : (x :: xs).getLast? = some ((x :: xs).getLast (by simp)) := by
          simp [List.getLast?_eq_getLast]
        rw [hlast]
        by_cases hmem : (x :: xs).getLast (by simp) ∈ closingChars
        · simp [hmem]
        · simp [hmem]

/-- C10: is_likely_truncated is total by construction in this embedding, and
returns false on the empty string and on every whitespace-only string: the
final-character branch is only reached behind the nonempty guards. -/
theorem c10_truncation_totality :
    is_likely_truncated [] = false
    ∧ ∀ text : List Char, (∀ c ∈ text, isPySpace c = true) →
        is_likely_truncated text = false := by
  constructor
  · decide
  · intro text hws
    unfold is_likely_truncated
    by_cases hnil : text = []
    · simp [hnil]
    · have hstrip : rstripPy text = [] := (rstripPy_eq_nil_iff text).mpr hws
      have hfence : pyCount fence3 text % 2 = 0 := by
        have : pyCount fence3 text = 0 := by
          unfold pyCount
          cases text with
          | nil => simp [countGo]
          | cons c rest =>
            have hb : isPySpace btick = false := by decide
            -- a whitespace-only list has no backticks, hence no fences
            have hnb : btick ∉ c :: rest := by
              intro hmem
              have := hws btick hmem
              rw [this] at hb
              exact Bool.noConfusion hb
            -- prove by a small auxiliary induction over countGo
            clear hnil hstrip
            revert hnb
            generalize (c :: rest) = l
            intro hnb
            have : ∀ fuel s, btick ∉ s → countGo fuel fence3 s = 0 := by
              intro fuel
              induction fuel with
              | zero => intro s _; rfl
              | succ n ih =>
                intro s hns
                cases s with
                | nil => rfl
                | cons a as =>
                  have hpre : fence3.isPrefixOf (a :: as) = false := by
                    cases hp : fence3.isPrefixOf (a :: as) with
                    | false => rfl
                    | true =>
                      have := List.isPrefixOf_iff_prefix.mp hp
                      obtain ⟨t, ht⟩ := this
                      have : btick ∈ a :: as := by
                        rw [← ht]
                        simp [fence3]
                      exact absurd this hns
                  simp only [countGo, hpre, if_false, Bool.false_eq_true]
                  exact ih as (fun hmem => hns (List.mem_cons_of_mem a hmem))
            exact this _ l hnb
        simp [this]
      simp [hnil, hfence, hstrip]

/-- C10 witness: a concrete whitespace-only string is judged not truncated. -/
theorem c10_truncation_totality_witness :
    is_likely_truncated (" \t\n ").data = false :=
  c10_truncation_totality.2 (" \t\n ").data (by decide)

/-! ## Dependency gating (src/services/base_service.py) -/

/-- The six service roles of the pipeline. -/
def roles : List String :=
  ["business", "architecture", "developer", "qa", "audit", "documentation"]

/-- Embedding of the dependencies dictionary built in BaseAgentService,
src/services/base_service.py lines 23-29, combined with the
dict.get default of the empty list used at line 168. -/
def dependencies (role : String) : List String :=
  if role = "architecture" then ["business"]
  else if role = "developer" then ["architecture"]
  else if role = "qa" then ["developer"]
  else if role = "audit" then ["developer", "qa"]
  else if role = "documentation" then
    ["business", "architecture", "developer", "qa", "audit"]
  else []

/-- A notification data record as seen by the dispatch gate: only the
source field matters there; data.get of an absent key is None and the
empty string is falsy in Python, hence the Option. -/
structure NotifData where
  source : Option String
deriving DecidableEq

/-- Embedding of BaseAgentService._should_process_update,
src/services/base_service.py lines 160-168. -/
def should_process_update (agentType : String) (data : NotifData) : Bool :=
  match data.source with
  | none => false
  | some s => if s = "" then false else decide (s ∈ dependencies agentType)

/-- Embedding of BaseAgentService._handle_file_update (lines 142-149): the
returned list holds the process_update invocations it performs. -/
def handle_file_update (agentType : String) (data : NotifData) : List NotifData :=
  if should_process_update agentType data then [data] else []

/-- Embedding of BaseAgentService._handle_notification (lines 151-158). -/
def handle_notification (agentType : String) (data : NotifData) : List NotifData :=
  if should_process_update agentType data then [data] else []

/-- C1: through either delivery callback, a notification from source X is
processed by role R exactly when X is in the dependency list of R; in
particular a qa notification is accepted by audit and documentation and
rejected by business and architecture. -/
theorem c1_dependency_gating :
    (∀ r x : String, r ∈ roles → x ∈ roles →
      ((handle_file_update r ⟨some x⟩ = [⟨some x⟩] ↔ x ∈ dependencies r)
        ∧ (handle_notification r ⟨some x⟩ = [⟨some x⟩] ↔ x ∈ dependencies r)))
    ∧ should_process_update "audit" ⟨some "qa"⟩ = true
    ∧ should_process_update "documentation" ⟨some "qa"⟩ = true
    ∧ should_process_update "business" ⟨some "qa"⟩ = false
    ∧ should_process_update "architecture" ⟨some "qa"⟩ = false := by
  refine ⟨?_, by decide, by decide, by decide, by decide⟩
  intro r x hr hx
  have hxe : x ≠ "" := by
    intro h
    subst h
    revert hx
    decide
  constructor <;>
    · simp only [handle_file_update, handle_notification, should_process_update]
      by_cases hdep : x ∈ dependencies r
      · simp [hdep, hxe]
      · simp [hdep, hxe]

/-- C1 witness: instantiating the gate at role audit and source qa. -/
theorem c1_dependency_gating_witness :
    handle_file_update "audit" ⟨some "qa"⟩ = [⟨some "qa"⟩] :=
  (c1_dependency_gating.1 "audit" "qa" (by decide) (by decide)).1.mpr (by decide)

/-- C9: a record with no source key, or with an empty source, is dropped by
every role: the gate returns false and neither callback invokes
process_update. -/
theorem c9_missing_source_dropped :
    ∀ r : String,
      should_process_update r ⟨none⟩ = false
      ∧ should_process_update r ⟨some ""⟩ = false
      ∧ handle_file_update r ⟨none⟩ = []
      ∧ handle_notification r ⟨none⟩ = []
      ∧ handle_file_update r ⟨some ""⟩ = []
      ∧ handle_notification r ⟨some ""⟩ = [] := by
  intro r
  refine ⟨rfl, rfl, ?_, ?_, ?_, ?_⟩ <;> rfl

/-! ## Error containment in process_update (src/services/base_service.py 170-192) -/

/-- A broadcast notification: source plus either an update payload or an
error description, mirroring the dictionaries built in process_update. -/
inductive Broadcast (R : Type) where
  | update (source : String) (data : R)
  | error (source : String) (msg : String)
deriving DecidableEq

/-- The body of the try block of process_update: run the role pipeline
(process then save_artifacts), producing the update broadcast on success
and the caught exception otherwise. -/
def runPipeline {D R : Type} (process : D → Except String R)
    (save : R → Except String Unit) (agentType : String) (data : D) :
    Except String (Broadcast R) := do
  let result ← process data
  let _ ← save result
  pure (Broadcast.update agentType result)

/-- Embedding of BaseAgentService.process_update: any error escaping the
pipeline is caught and converted to an error broadcast; the function itself
is total, so the caller always continues. -/
def process_update {D R : Type} (process : D → Except String R)
    (save : R → Except String Unit) (agentType : String) (data : D) :
    List (Broadcast R) :=
  match runPipeline process save agentType data with
  | Except.ok b => [b]
  | Except.error e => [Broadcast.error agentType e]

/-- C7: whatever exception the role pipeline raises, process_update returns
normally with exactly one broadcast: an error broadcast carrying the error
description when process or save_artifacts failed, the update broadcast
otherwise. -/
theorem c7_error_containment {D R : Type} (process : D → Except String R)
    (save : R → Except String Unit) (agentType : String) (data : D) :
    (∀ e, process data = Except.error e →
        process_update process save agentType data = [Broadcast.error agentType e])
    ∧ (∀ r e, process data = Except.ok r → save r = Except.error e →
        process_update process save agentType data = [Broadcast.error agentType e])
    ∧ (∀ r, process data = Except.ok r → save r = Except.ok () →
        process_update process save agentType data = [Broadcast.update agentType r]) := by
  refine ⟨?_, ?_, ?_⟩
  · intro e he
    simp [process_update, runPipeline, he, Except.instMonad, Except.bind,
      Except.map, Bind.bind, Functor.map]
  · intro r e hr he
    simp [process_update, runPipeline, hr, he, Except.instMonad, Except.bind,
      Except.map, Bind.bind, Functor.map]
  · intro r hr hs
    simp [process_update, runPipeline, hr, hs, Except.instMonad, Except.bind,
      Except.map, Except.pure, Bind.bind, Functor.map]

/-- C7 witness: a pipeline that raises is converted into a single error
broadcast at a concrete input. -/
theorem c7_error_containment_witness :
    process_update (fun _ : Unit => (Except.error "boom" : Except String Unit))
      (fun _ => Except.ok ()) "developer" () = [Broadcast.error "developer" "boom"] :=
  (c7_error_containment (fun _ : Unit => (Except.error "boom" : Except String Unit))
    (fun _ => Except.ok ()) "developer" ()).1 "boom" rfl

/-! ## The notification channel watchers (src/services/communicator.py) -/

/-- The service_ports table of ServiceCommunicator.__init__, lines 26-32.
Note that business is absent from it. -/
def servicePortKeys : List String :=
  ["architecture", "developer", "qa", "audit", "documentation"]

/-- Embedding of ServiceCommunicator._setup_watchers, lines 52-65: the list
of roles whose output directory gets a watcher; a watcher is installed for
every key of the ports table other than the own role whose directory exists
at startup. -/
def setup_watchers (serviceName : String) (dirExists : String → Bool) : List String :=
  servicePortKeys.filter (fun s => decide (s ≠ serviceName) && dirExists s)

/-- The recognized artifact extension checked in _handle_file_change. -/
def jsonExt : List Char := (".json").data

/-- Embedding of ServiceCommunicator._handle_file_change, lines 67-78: a
created or modified file is dispatched only when its path ends in .json; the
successfully parsed file contents are handed directly to the file-changed
callbacks, and a read or parse failure drops the event. The parse outcome is
passed in as an Option. -/
def handle_file_change {J : Type} (path : List Char) (parsed : Option J) : List J :=
  if jsonExt.isSuffixOf path then
    match parsed with
    | some d => [d]
    | none => []
  else []

/-- C8 counterexample: with every directory existing, the architecture
service watches only four directories, and the business output directory is
watched by nobody, contradicting the claim that all five other roles are
watched. -/
theorem c8_watchers_counterexample :
    setup_watchers "architecture" (fun _ => true)
        = ["developer", "qa", "audit", "documentation"]
    ∧ (setup_watchers "architecture" (fun _ => true)).length ≠ 5
    ∧ "business" ∉ setup_watchers "architecture" (fun _ => true) := by
  refine ⟨by decide, by decide, by decide⟩

/-- C8 amended: the channel installs watchers exactly on the ports-table
roles other than the own role whose directory exists (the table omits
business), and a create or modify event is dispatched with the parsed file
contents exactly when the path ends in .json and parsing succeeded. -/
theorem c8_watchers_amended {J : Type} :
    (∀ (r : String) (dirExists : String → Bool) (s : String),
      s ∈ setup_watchers r dirExists
        ↔ (s ∈ servicePortKeys ∧ s ≠ r ∧ dirExists s = true))
    ∧ (∀ (path : List Char) (d : J), jsonExt.isSuffixOf path = true →
        handle_file_change path (some d) = [d])
    ∧ (∀ (path : List Char) (d : Option J), jsonExt.isSuffixOf path = false →
        handle_file_change path d = [])
    ∧ (∀ (path : List Char), handle_file_change path (none : Option J) = []) := by
  refine ⟨?_, ?_, ?_, ?_⟩
  · intro r dirExists s
    unfold setup_watchers
    rw [List.mem_filter]
    constructor
    · rintro ⟨h1, h2⟩
      rw [Bool.and_eq_true] at h2
      exact ⟨h1, by simpa using h2.1, h2.2⟩
    · rintro ⟨h1, h2, h3⟩
      exact ⟨h1, by simp [h2, h3]⟩
  · intro path d h
    simp [handle_file_change, h]
  · intro path d h
    simp [handle_file_change, h]
  · intro path
    simp [handle_file_change]

/-- C8 amended witness: the qa service watches the developer directory and a
json artifact event is dispatched with its parsed contents. -/
theorem c8_watchers_amended_witness :
    "developer" ∈ setup_watchers "qa" (fun _ => true)
    ∧ handle_file_change ("result.json").data (some (42 : Nat)) = [42] :=
  ⟨((c8_watchers_amended (J := Nat)).1 "qa" (fun _ => true) "developer").mpr
      ⟨by decide, by decide, rfl⟩,
    (c8_watchers_amended (J := Nat)).2.1 ("result.json").data 42 (by decide)⟩

/-! ## The truncation recovery loop
(src/services/developer_service_backup.py lines 152-179) -/

/-- Embedding of the for-loop body of _recover_truncated_response. The
continuation call is supplied as a function from the attempt index to an
Option: none models an exception from the endpoint, some of the returned
content otherwise. The result pairs the accumulated text with the number of
continuation requests issued. -/
def recoverLoop (cont : Nat → Option (List Char)) :
    Nat → Nat → List Char → List Char × Nat
  | _, 0, full => (full, 0)
  | attempt, fuel+1, full =>
    if is_likely_truncated full = false then (full, 0)
    else
      match cont attempt with
      | none => (full, 1)
      | some addition =>
        if addition = [] then (full, 1)
        else
          let p := recoverLoop cont (attempt + 1) fuel (full ++ '\n' :: addition)
          (p.1, p.2 + 1)

/-- Embedding of DeveloperService._recover_truncated_response with its
attempt budget. -/
def recover_truncated_response (cont : Nat → Option (List Char))
    (maxAttempts : Nat) (initialText : List Char) : List Char × Nat :=
  recoverLoop cont 0 maxAttempts initialText

theorem recoverLoop_requests_le (cont : Nat → Option (List Char)) :
    ∀ (fuel attempt : Nat) (full : List Char),
      (recoverLoop cont attempt fuel full).2 ≤ fuel := by
  intro fuel
  induction fuel with
  | zero => intro attempt full; simp [recoverLoop]
  | succ n ih =>
    intro attempt full
    unfold recoverLoop
    by_cases ht : is_likely_truncated full = false
    · simp [ht]
    · rw [if_neg ht]
      cases hc : cont attempt with
      | none => simp
      | some addition =>
        by_cases ha : addition = []
        · simp [ha]
        · simp only [ha, if_false]
          have := ih (attempt + 1) (full ++ '\n' :: addition)
          simpa using Nat.succ_le_succ this

theorem recoverLoop_shape (cont : Nat → Option (List Char)) :
    ∀ (fuel attempt : Nat) (full : List Char),
      ∃ parts : List (List Char),
        (recoverLoop cont attempt fuel full).1
            = full ++ (parts.map (fun p => '\n' :: p)).flatten
        ∧ parts.length ≤ fuel
        ∧ ∀ p ∈ parts, p ≠ [] := by
  intro fuel
  induction fuel with
  | zero =>
    intro attempt full
    exact ⟨[], by simp [recoverLoop], by simp, by simp⟩
  | succ n ih =>
    intro attempt full
    unfold recoverLoop
    by_cases ht : is_likely_truncated full = false
    · exact ⟨[], by simp [ht], by simp, by simp⟩
    · rw [if_neg ht]
      cases hc : cont attempt with
      | none => exact ⟨[], by simp, by simp, by simp⟩
      | some addition =>
        by_cases ha : addition = []
        · exact ⟨[], by simp [ha], by simp, by simp⟩
        · simp only [ha, if_false]
          obtain ⟨parts, h1, h2, h3⟩ := ih (attempt + 1) (full ++ '\n' :: addition)
          refine ⟨addition :: parts, ?_, by simpa using h2, ?_⟩
          · simp only [List.map_cons, List.flatten_cons, h1]
            simp
          · intro p hp
            rcases List.mem_cons.mp hp with h | h
            · subst h; exact ha
            · exact h3 p h

/-- C6: with a truncated initial text and a continuation that always returns
an empty string, the loop issues exactly one request and returns the
original text unchanged; in general it issues at most max_attempts requests,
stops immediately when the heuristic reports complete, and the final text is
the initial text followed by the nonempty continuations, each preceded by a
newline separator. -/
theorem c6_recovery_loop :
    (∀ (cont : Nat → Option (List Char)) (k : Nat) (initialText : List Char),
      is_likely_truncated initialText = true → (∀ n, cont n = some []) →
        recover_truncated_response cont (k + 1) initialText = (initialText, 1))
    ∧ (∀ (cont : Nat → Option (List Char)) (k : Nat) (initialText : List Char),
        (recover_truncated_response cont k initialText).2 ≤ k)
    ∧ (∀ (cont : Nat → Option (List Char)) (k : Nat) (initialText : List Char),
        is_likely_truncated initialText = false →
          recover_truncated_response cont k initialText = (initialText, 0))
    ∧ (∀ (cont : Nat → Option (List Char)) (k : Nat) (initialText : List Char),
        ∃ parts : List (List Char),
          (recover_truncated_response cont k initialText).1
              = initialText ++ (parts.map (fun p => '\n' :: p)).flatten
          ∧ parts.length ≤ k
          ∧ ∀ p ∈ parts, p ≠ []) := by
  refine ⟨?_, ?_, ?_, ?_⟩
  · intro cont k initialText ht hc
    unfold recover_truncated_response recoverLoop
    simp [ht, hc 0]
  · intro cont k initialText
    exact recoverLoop_requests_le cont k 0 initialText
  · intro cont k initialText ht
    cases k with
    | zero => rfl
    | succ n =>
      unfold recover_truncated_response recoverLoop
      simp [ht]
  · intro cont k initialText
    exact recoverLoop_shape cont k 0 initialText

/-- C6 witness: a concrete truncated text with an always-empty continuation
stops after one request with the text unchanged. -/
theorem c6_recovery_loop_witness :
    recover_truncated_response (fun _ => some []) 3 ("writing files ...done").data
      = (("writing files ...done").data, 1) :=
  c6_recovery_loop.1 (fun _ => some []) 2 ("writing files ...done").data
    (by decide) (fun _ => rfl)

/-! ## Python str.replace and the cleaning pass
(src/services/developer_service.py lines 14-42) -/

/-- Bounded engine for Python str.replace: substitute every non-overlapping
occurrence of a pattern scanning left to right, never rescanning replacement
text. The fuel of the wrapper below is the list length, which suffices since
every step consumes at least one character. -/
def replGo : Nat → List Char → List Char → List Char → List Char
  | 0, _, _, s => s
  | fuel+1, pat, rep, s =>
    match s with
    | [] => []
    | c :: rest =>
      if pat.isPrefixOf s then rep ++ replGo fuel pat rep (s.drop pat.length)
      else c :: replGo fuel pat rep rest

/-- Python str.replace for a nonempty pattern. -/
def pyReplace (pat rep s : List Char) : List Char := replGo s.length pat rep s

/-- The literal six-character source text of a backslash-u escape, as written
in the replacement dictionary of clean_json_string (the Python source spells
these with a doubled backslash, so they are plain text, not code points). -/
def uEsc (a b c d : Char) : List Char := [bslashC, 'u', a, b, c, d]

/-- The fence markers as pattern lists. -/
def fenceJsonPat : List Char := [btick, btick, btick, 'j', 's', 'o', 'n']

/-- The ordered replacement table of clean_json_string: the two fence
removals followed by the chars dictionary in insertion order. -/
def replPairs : List (List Char × List Char) :=
  [ (fenceJsonPat, []),
    (fence3, []),
    ([bslashC, quoteC], [quoteC]),
    ([bslashC, aposC], [aposC]),
    (uEsc '2' '0' '1' 'c', [quoteC]),
    (uEsc '2' '0' '1' 'd', [quoteC]),
    (uEsc '2' '0' '1' '8', [aposC]),
    (uEsc '2' '0' '1' '9', [aposC]),
    (uEsc '2' '0' '1' '1', ['-']),
    (uEsc '2' '0' '1' '2', ['-']),
    (uEsc '2' '0' '1' '3', ['-']),
    (uEsc '2' '0' '1' '4', ['-', '-']),
    (uEsc '2' '0' '2' '6', ['.', '.', '.']),
    (uEsc '2' '0' '2' '2', ['*']),
    (uEsc '2' '5' '0' '0', ['-']),
    (uEsc '2' '5' '0' '2', ['|']),
    (uEsc '2' '5' '1' 'c', ['+']),
    (uEsc '2' '5' '1' '4', ['+']) ]

/-- The sequential replacement pass of clean_json_string. -/
def replChain (text : List Char) : List Char :=
  replPairs.foldl (fun s pr => pyReplace pr.1 pr.2 s) text

/-- Embedding of DeveloperService.clean_json_string from
src/services/developer_service.py lines 14-42: fence and punctuation
replacements, then brace balancing by appending the missing closing braces,
then a final strip. -/
def clean_json_string (text : List Char) : List Char :=
  pyStrip
    (if (replChain text).count cbrace < (replChain text).count obrace then
      pyStrip (replChain text)
        ++ List.replicate
            ((replChain text).count obrace - (replChain text).count cbrace) cbrace
    else replChain text)

/-! ## A model of json.loads -/

/-- JSON values as produced by json.loads; numbers keep their source lexeme
so no floating point is involved. -/
inductive JVal where
  | jnull : JVal
  | jbool : Bool → JVal
  | jnum : List Char → JVal
  | jstr : List Char → JVal
  | jarr : List JVal → JVal
  | jobj : List (List Char × JVal) → JVal

/-- The whitespace accepted between JSON tokens. -/
def isJsonWs (c : Char) : Bool := c == ' ' || c == '\t' || c == '\n' || c == '\r'

def skipWs (s : List Char) : List Char := s.dropWhile isJsonWs

def hexVal (c : Char) : Option Nat :=
  if '0' ≤ c ∧ c ≤ '9' then some (c.toNat - 48)
  else if 'a' ≤ c ∧ c ≤ 'f' then some (c.toNat - 87)
  else if 'A' ≤ c ∧ c ≤ 'F' then some (c.toNat - 55)
  else none

/-- The single-character escapes of JSON strings. -/
def escChar (e : Char) : Option Char :=
  if e = quoteC then some quoteC
  else if e = bslashC then some bslashC
  else if e = '/' then some '/'
  else if e = 'b' then some (Char.ofNat 8)
  else if e = 'f' then some (Char.ofNat 12)
  else if e = 'n' then some '\n'
  else if e = 'r' then some '\r'
  else if e = 't' then some '\t'
  else none

/-- String body scanner: decodes until the closing quote, rejecting raw
control characters and unknown escapes as the strict json module does. -/
def parseStrGo : Nat → List Char → Option (List Char × List Char)
  | 0, _ => none
  | _+1, [] => none
  | fuel+1, c :: rest =>
    if c = quoteC then some ([], rest)
    else if c = bslashC then
      match rest with
      | [] => none
      | e :: rest2 =>
        if e = 'u' then
          match rest2 with
          | h1 :: h2 :: h3 :: h4 :: rest3 =>
            match hexVal h1, hexVal h2, hexVal h3, hexVal h4 with
            | some a, some b, some c2, some d =>
              (parseStrGo fuel rest3).map
                (fun p => (Char.ofNat (((a * 16 + b) * 16 + c2) * 16 + d) :: p.1, p.2))
            | _, _, _, _ => none
          | _ => none
        else
          match escChar e with
          | some ec => (parseStrGo fuel rest2).map (fun p => (ec :: p.1, p.2))
          | none => none
    else if c.toNat < 32 then none
    else (parseStrGo fuel rest).map (fun p => (c :: p.1, p.2))

def jsonDigits (s : List Char) : List Char × List Char :=
  (s.takeWhile Char.isDigit, s.dropWhile Char.isDigit)

def parseNumExp (acc : List Char) (s : List Char) : Option (List Char × List Char) :=
  match s with
  | c :: r =>
    if c = 'e' ∨ c = 'E' then
      let sgnSplit : List Char × List Char :=
        match r with
        | d :: r1 => if d = '+' ∨ d = '-' then ([d], r1) else ([], r)
        | [] => ([], [])
      match jsonDigits sgnSplit.2 with
      | ([], _) => none
      | (ds, r2) => some (acc ++ c :: sgnSplit.1 ++ ds, r2)
    else some (acc, s)
  | [] => some (acc, [])

def parseNumFrac (acc : List Char) (s : List Char) : Option (List Char × List Char) :=
  match s with
  | c :: r =>
    if c = '.' then
      match jsonDigits r with
      | ([], _) => none
      | (ds, r2) => parseNumExp (acc ++ c :: ds) r2
    else parseNumExp acc s
  | [] => parseNumExp acc s

/-- The JSON number grammar: optional minus, integer part without leading
zeros, optional fraction and exponent; returns the lexeme and the rest. -/
def parseNum (s : List Char) : Option (List Char × List Char) :=
  let split : List Char × List Char :=
    match s with
    | c :: r => if c = '-' then ([c], r) else ([], s)
    | [] => ([], [])
  match split.2 with
  | [] => none
  | c :: r =>
    if c = '0' then parseNumFrac (split.1 ++ [c]) r
    else if c.isDigit then
      let ds := (c :: r).takeWhile Char.isDigit
      let r2 := (c :: r).dropWhile Char.isDigit
      parseNumFrac (split.1 ++ ds) r2
    else none

mutual

def parseVal (fuel : Nat) (s : List Char) : Option (JVal × List Char) :=
  match fuel with
  | 0 => none
  | fuel'+1 =>
    match skipWs s with
    | [] => none
    | c :: rest =>
      if c = quoteC then
        (parseStrGo (rest.length + 1) rest).map (fun p => (JVal.jstr p.1, p.2))
      else if c = obrace then parseObjGo fuel' rest true []
      else if c = '[' then parseArrGo fuel' rest true []
      else if ("true").data.isPrefixOf (c :: rest) then
        some (JVal.jbool true, (c :: rest).drop 4)
      else if ("false").data.isPrefixOf (c :: rest) then
        some (JVal.jbool false, (c :: rest).drop 5)
      else if ("null").data.isPrefixOf (c :: rest) then
        some (JVal.jnull, (c :: rest).drop 4)
      else if ("NaN").data.isPrefixOf (c :: rest) then
        some (JVal.jnum ("NaN").data, (c :: rest).drop 3)
      else if ("Infinity").data.isPrefixOf (c :: rest) then
        some (JVal.jnum ("Infinity").data, (c :: rest).drop 8)
      else if ("-Infinity").data.isPrefixOf (c :: rest) then
        some (JVal.jnum ("-Infinity").data, (c :: rest).drop 9)
      else if c = '-' ∨ c.isDigit then
        (parseNum (c :: rest)).map (fun p => (JVal.jnum p.1, p.2))
      else none

def parseObjGo (fuel : Nat) (s : List Char) (first : Bool)
    (acc : List (List Char × JVal)) : Option (JVal × List Char) :=
  match fuel with
  | 0 => none
  | fuel'+1 =>
    match skipWs s with
    | [] => none
    | c :: rest =>
      if c = cbrace ∧ first then some (JVal.jobj acc, rest)
      else if c = quoteC then
        match parseStrGo (rest.length + 1) rest with
        | none => none
        | some (key, r1) =>
          match skipWs r1 with
          | c2 :: r2 =>
            if c2 = ':' then
              match parseVal fuel' r2 with
              | none => none
              | some (v, r3) =>
                match skipWs r3 with
                | c3 :: r4 =>
                  if c3 = ',' then parseObjGo fuel' r4 false (acc ++ [(key, v)])
                  else if c3 = cbrace then some (JVal.jobj (acc ++ [(key, v)]), r4)
                  else none
                | [] => none
            else none
          | [] => none
      else none

def parseArrGo (fuel : Nat) (s : List Char) (first : Bool)
    (acc : List JVal) : Option (JVal × List Char) :=
  match fuel with
  | 0 => none
  | fuel'+1 =>
    match skipWs s with
    | [] => none
    | c :: rest =>
      if c = ']' ∧ first then some (JVal.jarr acc, rest)
      else
        match parseVal fuel' s with
        | none => none
        | some (v, r1) =>
          match skipWs r1 with
          | c2 :: r2 =>
            if c2 = ',' then parseArrGo fuel' r2 false (acc ++ [v])
            else if c2 = ']' then some (JVal.jarr (acc ++ [v]), r2)
            else none
          | [] => none

end

/-- Model of json.loads: parse one value, require only whitespace after. -/
def jsonLoads (s : List Char) : Option JVal :=
  match parseVal (s.length + 1) s with
  | some (v, rest) => if skipWs rest = [] then some v else none
  | none => none

/-! ## The balanced-brace scan regex of developer_service.py line 86

The pattern is an open brace, then a repetition of single non-brace
characters or one-level nested groups, then a close brace. Backtracking
never rescues a failed greedy scan for this pattern, so the deterministic
scanner below reproduces the regex engine. -/

/-- Matches the body of one candidate after its opening brace; returns the
consumed characters (including the final close brace) and the rest. -/
def objBodyGo : Nat → List Char → Option (List Char × List Char)
  | 0, _ => none
  | _+1, [] => none
  | fuel+1, c :: rest =>
    if c = cbrace then some ([c], rest)
    else if c = obrace then
      let inner := rest.takeWhile (fun d => decide (d ≠ obrace ∧ d ≠ cbrace))
      let rest2 := rest.dropWhile (fun d => decide (d ≠ obrace ∧ d ≠ cbrace))
      match rest2 with
      | d :: rest3 =>
        if d = cbrace then
          (objBodyGo fuel rest3).map (fun p => (c :: (inner ++ d :: p.1), p.2))
        else none
      | [] => none
    else (objBodyGo fuel rest).map (fun p => (c :: p.1, p.2))

/-- re.findall for the brace pattern: left to right, non-overlapping. -/
def findObjsGo : Nat → List Char → List (List Char)
  | 0, _ => []
  | _+1, [] => []
  | fuel+1, c :: rest =>
    if c = obrace then
      match objBodyGo (rest.length + 1) rest with
      | some (body, r) => (c :: body) :: findObjsGo fuel r
      | none => findObjsGo fuel rest
    else findObjsGo fuel rest

def findAllObjects (s : List Char) : List (List Char) := findObjsGo s.length s

/-! ## The fenced-block regex of developer_service.py line 78

After a literal fence tag, greedy whitespace, then a lazy group up to the
first closing fence; the captured group is the text between the maximal
whitespace runs. -/

/-- Index of the first occurrence of a pattern as a sublist. -/
def findSubIdx (pat : List Char) : List Char → Nat → Option Nat
  | [], i => if pat.isPrefixOf [] then some i else none
  | s@(_ :: rest), i =>
    if pat.isPrefixOf s then some i else findSubIdx pat rest (i + 1)

/-- re.findall for the json fence pattern, returning the captured groups. -/
def findBlocksGo : Nat → List Char → List (List Char)
  | 0, _ => []
  | _+1, [] => []
  | fuel+1, s@(_ :: rest) =>
    if fenceJsonPat.isPrefixOf s then
      let afterTag := (s.drop 7).dropWhile isPySpace
      match findSubIdx fence3 afterTag 0 with
      | some j => rstripPy (afterTag.take j) :: findBlocksGo fuel (afterTag.drop (j + 3))
      | none => findBlocksGo fuel rest
    else findBlocksGo fuel rest

def findJsonBlocks (s : List Char) : List (List Char) := findBlocksGo s.length s

/-- Embedding of DeveloperService.extract_json from
src/services/developer_service.py lines 66-93: clean first, then direct
parse, then fenced json blocks of the cleaned text, then the balanced-brace
scan of the cleaned text returning the first candidate that parses. -/
def extract_json (content : List Char) : Option JVal :=
  let cleaned := clean_json_string content
  match jsonLoads cleaned with
  | some v => some v
  | none =>
    match (findJsonBlocks cleaned).findSome?
        (fun b => jsonLoads (clean_json_string b)) with
    | some v => some v
    | none => (findAllObjects cleaned).findSome? jsonLoads

/-! ## The backup brace-scan regex of developer_service_backup.py line 108

The backup file doubles the backslashes inside a raw string, so every
escaped brace of the pattern turns into a literal backslash followed by a
brace: a candidate must start with a literal backslash-brace pair and end
with one, and the nested group likewise requires literal backslashes. -/

/-- Matches the body of one backup candidate after its opening
backslash-brace pair. -/
def bkBodyGo : Nat → List Char → Option (List Char × List Char)
  | 0, _ => none
  | _+1, [] => none
  | fuel+1, c :: rest =>
    if c = bslashC then
      match rest with
      | [] => none
      | d :: rest2 =>
        if d = cbrace then some ([c, d], rest2)
        else if d = obrace then
          let run := rest2.takeWhile (fun e => decide (e ≠ obrace ∧ e ≠ cbrace))
          let rest3 := rest2.dropWhile (fun e => decide (e ≠ obrace ∧ e ≠ cbrace))
          match rest3 with
          | e :: rest4 =>
            if e = cbrace ∧ run.getLast? = some bslashC then
              (bkBodyGo fuel rest4).map (fun p => (c :: d :: (run ++ e :: p.1), p.2))
            else none
          | [] => none
        else (bkBodyGo fuel rest).map (fun p => (c :: p.1, p.2))
    else if c = obrace ∨ c = cbrace then none
    else (bkBodyGo fuel rest).map (fun p => (c :: p.1, p.2))

def bkFindGo : Nat → List Char → List (List Char)
  | 0, _ => []
  | _+1, [] => []
  | fuel+1, c :: rest =>
    if c = bslashC then
      match rest with
      | [] => []
      | d :: rest2 =>
        if d = obrace then
          match bkBodyGo (rest2.length + 1) rest2 with
          | some (body, r) => (c :: d :: body) :: bkFindGo fuel r
          | none => bkFindGo fuel rest
        else bkFindGo fuel rest
    else bkFindGo fuel rest

/-- Candidates of the backup scan regex. -/
def bkFindObjs (s : List Char) : List (List Char) := bkFindGo s.length s

/-- Embedding of the longest-successful-parse loop of
src/services/developer_service_backup.py lines 108-120, fed by its own
candidate regex. -/
def backupScanLargest (content : List Char) : Option JVal :=
  ((bkFindObjs content).foldl
    (fun acc o =>
      match jsonLoads o with
      | some parsed => if o.length > acc.2 then (some parsed, o.length) else acc
      | none => acc)
    ((none : Option JVal), 0)).1

/-! ## Lemmas about the cleaning pass -/

theorem count_replGo (ch : Char) :
    ∀ (fuel : Nat) (pat rep s : List Char), pat.count ch = 0 → rep.count ch = 0 →
      (replGo fuel pat rep s).count ch = s.count ch := by
  intro fuel
  induction fuel with
  | zero => intro pat rep s _ _; rfl
  | succ n ih =>
    intro pat rep s hp hr
    cases s with
    | nil => rfl
    | cons c rest =>
      rw [replGo]
      by_cases hpre : pat.isPrefixOf (c :: rest) = true
      · rw [if_pos hpre, List.count_append, ih pat rep _ hp hr, hr]
        obtain ⟨t, ht⟩ := List.isPrefixOf_iff_prefix.mp hpre
        rw [← ht, List.drop_left, List.count_append, hp]
      · rw [if_neg hpre]
        simp [List.count_cons, ih pat rep rest hp hr]

theorem replChain_count (ch : Char)
    (h : ∀ pr ∈ replPairs, pr.1.count ch = 0 ∧ pr.2.count ch = 0)
    (text : List Char) : (replChain text).count ch = text.count ch := by
  unfold replChain
  have main : ∀ (prs : List (List Char × List Char)) (t : List Char),
      (∀ pr ∈ prs, pr.1.count ch = 0 ∧ pr.2.count ch = 0) →
      (prs.foldl (fun s pr => pyReplace pr.1 pr.2 s) t).count ch = t.count ch := by
    intro prs
    induction prs with
    | nil => intro t _; rfl
    | cons p ps ih =>
      intro t hall
      rw [List.foldl_cons, ih _ (fun pr hpr => hall pr (List.mem_cons_of_mem p hpr))]
      exact count_replGo ch _ p.1 p.2 t (hall p (List.mem_cons_self p ps)).1
        (hall p (List.mem_cons_self p ps)).2
  exact main replPairs text h

theorem rstripPy_prefix (l : List Char) : ∃ t, rstripPy l ++ t = l := by
  unfold rstripPy
  obtain ⟨t, ht⟩ := List.dropWhile_suffix (l := l.reverse) isPySpace
  refine ⟨t.reverse, ?_⟩
  have h2 := congrArg List.reverse ht
  rw [List.reverse_append] at h2
  simpa using h2

theorem pyStrip_head_not_ws (l : List Char) (x : Char) (xs : List Char)
    (h : pyStrip l = x :: xs) : isPySpace x = false := by
  obtain ⟨t, ht⟩ := rstripPy_prefix (lstripPy l)
  unfold pyStrip at h
  have hl : lstripPy l = x :: (xs ++ t) := by
    rw [← ht, h]
    simp
  exact dropWhile_head_false isPySpace l x (xs ++ t) hl

theorem pyStrip_append_replicate (t : List Char) (m : Nat) :
    pyStrip (pyStrip t ++ List.replicate (m + 1) cbrace)
      = pyStrip t ++ List.replicate (m + 1) cbrace := by
  have hl : lstripPy (pyStrip t ++ List.replicate (m + 1) cbrace)
      = pyStrip t ++ List.replicate (m + 1) cbrace := by
    cases hu : pyStrip t with
    | nil =>
      unfold lstripPy
      rw [List.nil_append, List.replicate_succ, List.dropWhile_cons]
      simp [show isPySpace cbrace = false from by decide]
    | cons x xs =>
      have hx := pyStrip_head_not_ws t x xs hu
      unfold lstripPy
      rw [List.cons_append, List.dropWhile_cons]
      simp [hx]
  have hr : (pyStrip t ++ List.replicate (m + 1) cbrace).reverse.dropWhile isPySpace
      = (pyStrip t ++ List.replicate (m + 1) cbrace).reverse := by
    rw [List.reverse_append, List.reverse_replicate, List.replicate_succ,
      List.cons_append, List.dropWhile_cons]
    simp [show isPySpace cbrace = false from by decide]
  show rstripPy (lstripPy (pyStrip t ++ List.replicate (m + 1) cbrace)) = _
  rw [hl]
  unfold rstripPy
  rw [hr, List.reverse_reverse]

/-- The spec example of a repairable string: an object with one unclosed
nested object. -/
def c5Input : List Char := ("\x7b\"a\": 1, \"b\": \x7b\"c\": 2\x7d").data

/-- C5: the cleaning step appends exactly the difference between open and
close brace counts of the input (and hence nothing when they balance), and
the spec example gains exactly one closing brace and then parses. -/
theorem c5_brace_repair :
    (∀ text : List Char,
      clean_json_string text
        = pyStrip (replChain text)
            ++ List.replicate (text.count obrace - text.count cbrace) cbrace)
    ∧ clean_json_string c5Input = c5Input ++ [cbrace]
    ∧ (jsonLoads (clean_json_string c5Input)).isSome = true := by
  refine ⟨?_, by decide, by decide⟩
  intro text
  unfold clean_json_string
  have ho : (replChain text).count obrace = text.count obrace :=
    replChain_count obrace (by decide) text
  have hc : (replChain text).count cbrace = text.count cbrace :=
    replChain_count cbrace (by decide) text
  rw [← ho, ← hc]
  by_cases h : (replChain text).count cbrace < (replChain text).count obrace
  · rw [if_pos h]
    obtain ⟨m, hm⟩ : ∃ m,
        (replChain text).count obrace - (replChain text).count cbrace = m + 1 :=
      ⟨(replChain text).count obrace - (replChain text).count cbrace - 1, by omega⟩
    rw [hm, pyStrip_append_replicate]
  · rw [if_neg h]
    have hz : (replChain text).count obrace - (replChain text).count cbrace = 0 := by
      omega
    rw [hz, List.replicate_zero, List.append_nil]

/-! ## C3 and C4: which candidate the extractor actually returns -/

/-- C3 failing input: two balanced-brace substrings that both parse, the
longer one second in scan order. -/
def c3Input : List Char := ("x \x7b\"a\": 1\x7d y \x7b\"bbbb\": 2222\x7d z").data

def c3Short : List Char := ("\x7b\"a\": 1\x7d").data

def c3Long : List Char := ("\x7b\"bbbb\": 2222\x7d").data

/-- C3: on an input whose brace scan yields two successfully parsing
candidates with the longer one second, extract_json of developer_service.py
returns the parse of the first, shorter candidate, not the longest; and the
backup scan of developer_service_backup.py, whose regex demands literal
backslashes around the braces, finds no candidate at all and returns
nothing. This contradicts the longest-successful-parse rule of the claim. -/
theorem c3_first_not_longest :
    findAllObjects (clean_json_string c3Input) = [c3Short, c3Long]
    ∧ (jsonLoads c3Short).isSome = true
    ∧ (jsonLoads c3Long).isSome = true
    ∧ c3Short.length < c3Long.length
    ∧ extract_json c3Input = jsonLoads c3Short
    ∧ extract_json c3Input ≠ jsonLoads c3Long
    ∧ backupScanLargest c3Input = none := by
  refine ⟨by decide, by decide, by decide, by decide, by rfl, ?_, by rfl⟩
  have h1 : extract_json c3Input
      = some (JVal.jobj [(['a'], JVal.jnum ['1'])]) := by rfl
  have h2 : jsonLoads c3Long
      = some (JVal.jobj [(['b', 'b', 'b', 'b'], JVal.jnum ['2', '2', '2', '2'])]) := by
    rfl
  rw [h1, h2]
  intro h
  simp at h

/-- C4 failing input: a longer unfenced valid object first, then a fenced
json block holding a short valid object. -/
def c4Input : List Char :=
  ("\x7b\"bb\": 22\x7d text ```json\n\x7b\"a\": 1\x7d\n```").data

def c4Fenced : List Char := ("\x7b\"a\": 1\x7d").data

def c4Unfenced : List Char := ("\x7b\"bb\": 22\x7d").data

/-- C4: the input holds a fenced json block with a short valid object and a
longer valid unfenced object, yet extract_json returns the unfenced object:
clean_json_string removes every fence marker before the fenced-block regex
runs on the cleaned text, so that strategy finds nothing and the brace scan
returns the first parsing candidate of the cleaned text. -/
theorem c4_fenced_strategy_defeated :
    findJsonBlocks c4Input = [c4Fenced]
    ∧ jsonLoads c4Fenced = some (JVal.jobj [(['a'], JVal.jnum ['1'])])
    ∧ (jsonLoads c4Unfenced).isSome = true
    ∧ c4Fenced.length < c4Unfenced.length
    ∧ findJsonBlocks (clean_json_string c4Input) = []
    ∧ extract_json c4Input = jsonLoads c4Unfenced
    ∧ extract_json c4Input ≠ some (JVal.jobj [(['a'], JVal.jnum ['1'])]) := by
  refine ⟨by decide, by rfl, by decide, by decide, by decide, by rfl, ?_⟩
  have h1 : extract_json c4Input
      = some (JVal.jobj [(['b', 'b'], JVal.jnum ['2', '2'])]) := by rfl
  rw [h1]
  intro h
  simp at h

end AgentPro
